import Mathlib

/-!
# Verification of the YouTube subscription transfer tool

Shallow embedding of `youtube_subscription_transfer.py`.  The stateful parts
(progress file, network calls, sleeps) are modelled by explicit inputs and an
event trace:

* `Outcome` classifies one `subscriptions().insert` attempt, mirroring the
  `except HttpError` reason dispatch in `subscribe_to_channel`
  (`subscriptionDuplicate`, `channelNotFound`, `quotaExceeded`,
  `rateLimitExceeded`/`userRateLimitExceeded`, any other `HttpError` reason,
  and a generic Python exception).
* `subscribe_to_channel` is the retry loop (source lines 246-318); it returns
  the boolean result together with the list of backoff waits (seconds) and the
  number of attempts actually executed.
* `import_subscriptions` is the batch engine (source lines 369-444); it
  returns the final statistics and the trace of externally visible actions
  (progress writes/clears, already-subscribed pre-checks, mutation attempts,
  inter-item sleeps), in program order.
* `progressAfter` folds a trace over the progress-file state, so an
  interruption is modelled as cutting the trace at an arbitrary point and
  folding the remaining prefix.

File operations (`save_progress`, `load_progress`, `clear_progress`,
`save_subscriptions`, `load_subscriptions`) are modelled over an explicit
JSON value and an `Except`-typed read/write result standing for the Python
`try`/`except` blocks.  Wall-clock timestamps are passed in as opaque strings
(`export_date`); the `timestamp` field of the progress file is informational and
read by no logic, so the modelled `Progress` record carries the three fields
the program consults.
-/

/-- One subscription record, as extracted and stored in the backup file
(source lines 163-171). -/
structure Subscription where
  channel_id : String
  channel_title : String
  channel_description : String
  published_at : String
  subscription_id : String
deriving Repr, DecidableEq

/-- The progress record written by `save_progress` (source lines 329-334);
the `timestamp` field is write-only in the program and omitted here. -/
structure Progress where
  last_processed_index : Nat
  last_channel_id : String
  total_subscriptions : Nat
deriving Repr, DecidableEq

/-- The statistics dictionary built by `import_subscriptions`
(source lines 379-385). -/
structure Stats where
  total : Nat
  successful : Nat
  failed : Nat
  already_subscribed : Nat
  skipped : Nat
deriving Repr, DecidableEq

/-- Classification of one `subscriptions().insert` attempt, following the
error dispatch of `subscribe_to_channel` (source lines 278-316). -/
inductive Outcome where
  | success
  | alreadyExists
  | notFound
  | quotaExceeded
  | rateLimited
  | otherHttpError
  | pyException
deriving Repr, DecidableEq

/-- Result of one `subscribe_to_channel` call: the returned boolean, the
backoff waits slept (in seconds, in order), and the number of insert
attempts executed. -/
structure RetryResult where
  result : Bool
  waits : List Nat
  attempts : Nat
deriving Repr, DecidableEq

/-- The retry loop body of `subscribe_to_channel` (source lines 258-318).
`remaining` counts the loop iterations left (`max_retries - attempt`), so the
recursion is structural; the guard `attempt < max_retries - 1` is kept exactly
as in the source.  An `otherHttpError` or `pyException` on the last attempt
falls through to the `return False` after the loop, consuming that attempt. -/
def subscribeGo (outcomes : Nat → Outcome) (max_retries : Nat) :
    Nat → Nat → RetryResult
  | 0, _ => ⟨false, [], 0⟩
  | remaining + 1, attempt =>
    match outcomes attempt with
    | Outcome.success => ⟨true, [], 1⟩
    | Outcome.alreadyExists => ⟨true, [], 1⟩
    | Outcome.notFound => ⟨false, [], 1⟩
    | Outcome.quotaExceeded => ⟨false, [], 1⟩
    | Outcome.rateLimited =>
      if attempt < max_retries - 1 then
        let wait_time := 2 ^ attempt * 5
        let r := subscribeGo outcomes max_retries remaining (attempt + 1)
        ⟨r.result, wait_time :: r.waits, r.attempts + 1⟩
      else ⟨false, [], 1⟩
    | Outcome.otherHttpError =>
      if attempt < max_retries - 1 then
        let wait_time := (attempt + 1) * 2
        let r := subscribeGo outcomes max_retries remaining (attempt + 1)
        ⟨r.result, wait_time :: r.waits, r.attempts + 1⟩
      else ⟨false, [], 1⟩
    | Outcome.pyException =>
      if attempt < max_retries - 1 then
        let wait_time := (attempt + 1) * 2
        let r := subscribeGo outcomes max_retries remaining (attempt + 1)
        ⟨r.result, wait_time :: r.waits, r.attempts + 1⟩
      else ⟨false, [], 1⟩

/-- Model of `subscribe_to_channel` (source lines 246-318): run the loop
over `range(max_retries)` from attempt 0.  `outcomes k` is the outcome of the
k-th insert attempt for this channel. -/
def subscribe_to_channel (outcomes : Nat → Outcome) (max_retries : Nat := 3) :
    RetryResult :=
  subscribeGo outcomes max_retries max_retries 0

example : subscribe_to_channel (fun _ => Outcome.rateLimited) 3 =
    ⟨false, [5, 10], 3⟩ := by decide

example : subscribe_to_channel (fun _ => Outcome.notFound) 3 =
    ⟨false, [], 1⟩ := by decide

example : subscribe_to_channel (fun _ => Outcome.pyException) 3 =
    ⟨false, [2, 4], 3⟩ := by decide

example : subscribe_to_channel
    (fun k => if k = 0 then Outcome.rateLimited else Outcome.success) 3 =
    ⟨true, [5], 2⟩ := by decide

/-- Externally visible actions of one `import_subscriptions` run, in program
order: the `save_progress` write before each item (source line 414), the
`is_already_subscribed` pre-check (line 417), the `subscribe_to_channel`
call (line 423), the inter-item `time.sleep(self.wait_time)` (line 429), and
the `clear_progress` calls (lines 399 and 438). -/
inductive Event where
  | saveProgress (index : Nat) (channel_id : String) (total : Nat)
  | checkSubscribed (index : Nat)
  | attemptSubscribe (index : Nat)
  | interItemSleep (index : Nat)
  | clearProgress
deriving Repr, DecidableEq

/-- The index an event concerns, if any. -/
def Event.idx : Event → Option Nat
  | Event.saveProgress i _ _ => some i
  | Event.checkSubscribed i => some i
  | Event.attemptSubscribe i => some i
  | Event.interItemSleep i => some i
  | Event.clearProgress => none

/-- The remote-API behaviour seen by one run: for each item index, whether
`is_already_subscribed` reports true (its own `HttpError` is swallowed into
`False`, source line 465), and the outcome of each insert attempt for that
item. -/
structure Env where
  alreadySubscribed : Nat → Bool
  outcomes : Nat → Nat → Outcome

/-- The boolean the engine sees for item `i`: `subscribe_to_channel` with the
default `max_retries = 3`, as called at source line 423. -/
def Env.attemptOk (env : Env) (i : Nat) : Bool :=
  (subscribe_to_channel (env.outcomes i)).result

/-- The `for i, subscription in enumerate(subscriptions)` loop of
`import_subscriptions` (source lines 403-435), started at list position `i`.
Items with `i < start` are skipped by `continue`; otherwise the progress of the item is saved, the pre-check runs, and either `already_subscribed` is
bumped and the loop continues (skipping the sleep, line 420), or the attempt
runs, one of `successful`/`failed` is bumped, and the inter-item sleep
happens. -/
def importFrom (env : Env) (total start : Nat) :
    List Subscription → Nat → Stats → Stats × List Event
  | [], _, stats => (stats, [])
  | sub :: rest, i, stats =>
    if i < start then
      importFrom env total start rest (i + 1) stats
    else if env.alreadySubscribed i then
      let r := importFrom env total start rest (i + 1)
        { stats with already_subscribed := stats.already_subscribed + 1 }
      (r.1, Event.saveProgress i sub.channel_id total ::
            Event.checkSubscribed i :: r.2)
    else
      let stats' := if env.attemptOk i then
          { stats with successful := stats.successful + 1 }
        else
          { stats with failed := stats.failed + 1 }
      let r := importFrom env total start rest (i + 1) stats'
      (r.1, Event.saveProgress i sub.channel_id total ::
            Event.checkSubscribed i ::
            Event.attemptSubscribe i ::
            Event.interItemSleep i :: r.2)

/-- The resume offset computed at source lines 387-396: in resume mode with a
progress record, `last_processed_index + 1`; otherwise 0. -/
def startIndex (resume_mode : Bool) (stored : Option Progress) : Nat :=
  if resume_mode then
    match stored with
    | some p => p.last_processed_index + 1
    | none => 0
  else 0

/-- Model of `import_subscriptions` (source lines 369-444).  `stored` is the progress
record on disk when the run starts (`load_progress` returns it in resume
mode).  Returns the final statistics and the event trace: the stale-progress
clear when not resuming (line 399), the per-item loop, and the unconditional
final clear (line 438). -/
def import_subscriptions (env : Env) (resume_mode : Bool)
    (stored : Option Progress) (subscriptions : List Subscription) :
    Stats × List Event :=
  let stats0 : Stats :=
    { total := subscriptions.length, successful := 0, failed := 0,
      already_subscribed := 0, skipped := 0 }
  let start_index := startIndex resume_mode stored
  let stats1 :=
    if resume_mode then
      match stored with
      | some _ => { stats0 with skipped := start_index }
      | none => stats0
    else stats0
  let pre : List Event := if resume_mode then [] else [Event.clearProgress]
  let r := importFrom env subscriptions.length start_index subscriptions 0 stats1
  (r.1, pre ++ r.2 ++ [Event.clearProgress])

/-- The progress-file state transition caused by one event: `save_progress`
overwrites the record (source lines 329-338), `clear_progress` removes it
(line 364), everything else leaves it alone. -/
def applyEvent (p : Option Progress) : Event → Option Progress
  | Event.saveProgress i cid total =>
    some { last_processed_index := i, last_channel_id := cid,
           total_subscriptions := total }
  | Event.clearProgress => none
  | _ => p

/-- The progress record surviving on disk after the events of `trace` have
executed, starting from record `stored`.  Interrupting a run after a prefix
of its trace leaves `progressAfter stored prefixPart` on disk. -/
def progressAfter (stored : Option Progress) (trace : List Event) :
    Option Progress :=
  trace.foldl applyEvent stored

section EngineSanityChecks

def subA : Subscription := ⟨"UC1", "Alpha", "", "2020", "s1"⟩
def subB : Subscription := ⟨"UC2", "Beta", "", "2021", "s2"⟩

/-- An environment where nothing is already subscribed and every insert
attempt succeeds at once. -/
def envOk : Env := ⟨fun _ => false, fun _ _ => Outcome.success⟩

/-- An environment where every pre-check reports "already subscribed". -/
def envDup : Env := ⟨fun _ => true, fun _ _ => Outcome.success⟩

example : import_subscriptions envOk false none [subA, subB] =
    ({ total := 2, successful := 2, failed := 0, already_subscribed := 0,
       skipped := 0 },
     [Event.clearProgress,
      Event.saveProgress 0 "UC1" 2, Event.checkSubscribed 0,
      Event.attemptSubscribe 0, Event.interItemSleep 0,
      Event.saveProgress 1 "UC2" 2, Event.checkSubscribed 1,
      Event.attemptSubscribe 1, Event.interItemSleep 1,
      Event.clearProgress]) := by decide

example : import_subscriptions envDup false none [subA] =
    ({ total := 1, successful := 0, failed := 0, already_subscribed := 1,
       skipped := 0 },
     [Event.clearProgress,
      Event.saveProgress 0 "UC1" 1, Event.checkSubscribed 0,
      Event.clearProgress]) := by decide

example : import_subscriptions envOk true (some ⟨0, "UC1", 2⟩) [subA, subB] =
    ({ total := 2, successful := 1, failed := 0, already_subscribed := 0,
       skipped := 1 },
     [Event.saveProgress 1 "UC2" 2, Event.checkSubscribed 1,
      Event.attemptSubscribe 1, Event.interItemSleep 1,
      Event.clearProgress]) := by decide

example : import_subscriptions envOk true (some ⟨5, "UCx", 9⟩) [subA, subB] =
    ({ total := 2, successful := 0, failed := 0, already_subscribed := 0,
       skipped := 6 }, [Event.clearProgress]) := by decide

example : progressAfter none [Event.clearProgress,
    Event.saveProgress 0 "UC1" 2] = some ⟨0, "UC1", 2⟩ := by decide

end EngineSanityChecks

/-- A JSON value, as stored in the backup and progress files. -/
inductive Json where
  | str : String → Json
  | num : Nat → Json
  | arr : List Json → Json
  | obj : List (String × Json) → Json

/-- First match of a key in the field list of a JSON object (Python `dict`
lookup; the dicts this program writes have distinct keys). -/
def lookupField : List (String × Json) → String → Option Json
  | [], _ => none
  | (k, v) :: rest, key => if k = key then some v else lookupField rest key

/-- Python `d.get(key)`: `none` when the key is absent or the value is not a
dict at all. -/
def Json.get : Json → String → Option Json
  | Json.obj fields, key => lookupField fields key
  | _, _ => none

/-- The JSON dict written for one subscription record
(source lines 164-170). -/
def subToJson (s : Subscription) : Json :=
  Json.obj [("channel_id", Json.str s.channel_id),
            ("channel_title", Json.str s.channel_title),
            ("channel_description", Json.str s.channel_description),
            ("published_at", Json.str s.published_at),
            ("subscription_id", Json.str s.subscription_id)]

/-- Reading one stored subscription dict back into a record, via the key
accesses the program performs on loaded items. -/
def jsonToSub (j : Json) : Option Subscription :=
  match j.get "channel_id", j.get "channel_title",
        j.get "channel_description", j.get "published_at",
        j.get "subscription_id" with
  | some (Json.str a), some (Json.str b), some (Json.str c),
    some (Json.str d), some (Json.str e) => some ⟨a, b, c, d, e⟩
  | _, _, _, _, _ => none

/-- Reading a whole stored subscription array back into records. -/
def decodeSubs : List Json → Option (List Subscription)
  | [] => some []
  | j :: rest =>
    match jsonToSub j, decodeSubs rest with
    | some s, some l => some (s :: l)
    | _, _ => none

/-- Model of `save_subscriptions` (source lines 190-219): the `backup_data` document
written to disk, with `export_date` set to the current wall-clock string and
`total_subscriptions` recomputed as `len(subscriptions)` (line 207). -/
def save_subscriptions (now : String) (subscriptions : List Subscription) :
    Json :=
  Json.obj [("export_date", Json.str now),
            ("total_subscriptions", Json.num subscriptions.length),
            ("subscriptions", Json.arr (subscriptions.map subToJson))]

/-- Model of `load_subscriptions` (source lines 221-244): `readResult` is the outcome
of opening and JSON-parsing the file.  On any failure the `except` block
returns `[]` (line 244); otherwise the lookup of the subscriptions key with default empty list — a
non-dict document raises inside the `try` and also yields `[]`. -/
def load_subscriptions (readResult : Except String Json) : Json :=
  match readResult with
  | Except.error _ => Json.arr []
  | Except.ok data => (data.get "subscriptions").getD (Json.arr [])

/-- Model of `save_progress` (source lines 320-340): `writeResult` is the outcome of
the file write.  The `except` block swallows any failure with a warning, so
nothing ever propagates to the caller. -/
def save_progress (writeResult : Except String Unit) : Except String Unit :=
  match writeResult with
  | Except.ok u => Except.ok u
  | Except.error _ => Except.ok ()

/-- Model of `clear_progress` (source lines 358-367): failures of the file removal are
likewise swallowed with a warning. -/
def clear_progress (removeResult : Except String Unit) : Except String Unit :=
  match removeResult with
  | Except.ok u => Except.ok u
  | Except.error _ => Except.ok ()

/-- Model of `load_progress` (source lines 342-356): returns the parsed record when
the file exists and parses, and the empty dict `{}` when the file is missing
or reading/parsing fails. -/
def load_progress (fileExists : Bool) (readResult : Except String Json) :
    Json :=
  if fileExists then
    match readResult with
    | Except.ok j => j
    | Except.error _ => Json.obj []
  else Json.obj []

section StoreSanityChecks

example : load_subscriptions (Except.ok (save_subscriptions "2024" [subA, subB])) =
    Json.arr [subToJson subA, subToJson subB] := rfl

example : jsonToSub (subToJson subA) = some subA := by
  simp [jsonToSub, subToJson, Json.get, lookupField]

example : (save_subscriptions "2024" [subA, subB]).get "total_subscriptions" =
    some (Json.num 2) := rfl

example : load_subscriptions (Except.error "missing") = Json.arr [] := rfl

end StoreSanityChecks

/-- Folding a concatenated trace composes the progress-file computation. -/
theorem progressAfter_append (stored : Option Progress) (a b : List Event) :
    progressAfter stored (a ++ b) = progressAfter (progressAfter stored a) b :=
  List.foldl_append ..

/-- A trace ending in a `clear_progress` leaves no record on disk. -/
theorem progressAfter_clear (stored : Option Progress) (l : List Event) :
    progressAfter stored (l ++ [Event.clearProgress]) = none := by
  rw [progressAfter_append]; rfl

/-- Each processed item bumps exactly one of `successful`, `failed`,
`already_subscribed`, so from an in-range position the loop adds the number
of remaining items to their sum. -/
theorem importFrom_counts (env : Env) (total start : Nat) :
    ∀ (subs : List Subscription) (i : Nat) (stats : Stats), start ≤ i →
      (importFrom env total start subs i stats).1.successful
        + (importFrom env total start subs i stats).1.failed
        + (importFrom env total start subs i stats).1.already_subscribed
      = stats.successful + stats.failed + stats.already_subscribed
          + subs.length := by
  intro subs
  induction subs with
  | nil => intro i stats _; simp [importFrom]
  | cons sub rest ih =>
    intro i stats h
    have hs : ¬ i < start := by omega
    by_cases ha : env.alreadySubscribed i
    · have := ih (i + 1)
        { stats with already_subscribed := stats.already_subscribed + 1 }
        (by omega)
      simp [importFrom, hs, ha] at this ⊢
      omega
    · by_cases hk : env.attemptOk i
      · have := ih (i + 1)
          { stats with successful := stats.successful + 1 } (by omega)
        simp [importFrom, hs, ha, hk] at this ⊢
        omega
      · have := ih (i + 1)
          { stats with failed := stats.failed + 1 } (by omega)
        simp [importFrom, hs, ha, hk] at this ⊢
        omega

/-- The loop never touches the `skipped` and `total` counters. -/
theorem importFrom_skipped_total (env : Env) (total start : Nat) :
    ∀ (subs : List Subscription) (i : Nat) (stats : Stats),
      (importFrom env total start subs i stats).1.skipped = stats.skipped ∧
      (importFrom env total start subs i stats).1.total = stats.total := by
  intro subs
  induction subs with
  | nil => intro i stats; simp [importFrom]
  | cons sub rest ih =>
    intro i stats
    by_cases hs : i < start
    · simpa [importFrom, hs] using ih (i + 1) stats
    · by_cases ha : env.alreadySubscribed i
      · simpa [importFrom, hs, ha] using ih (i + 1)
          { stats with already_subscribed := stats.already_subscribed + 1 }
      · by_cases hk : env.attemptOk i
        · simpa [importFrom, hs, ha, hk] using ih (i + 1)
            { stats with successful := stats.successful + 1 }
        · simpa [importFrom, hs, ha, hk] using ih (i + 1)
            { stats with failed := stats.failed + 1 }

/-- When the resume offset lies at or beyond the end of the remaining items,
the loop does nothing: every iteration takes the `continue` branch. -/
theorem importFrom_out_of_range (env : Env) (total start : Nat) :
    ∀ (subs : List Subscription) (i : Nat) (stats : Stats),
      i + subs.length ≤ start →
      importFrom env total start subs i stats = (stats, []) := by
  intro subs
  induction subs with
  | nil => intro i stats _; simp [importFrom]
  | cons sub rest ih =>
    intro i stats h
    simp only [List.length_cons] at h
    have hs : i < start := by omega
    simp [importFrom, hs, ih (i + 1) stats (by omega)]

/-- Every item position at or past the resume offset gets its pre-check
event: no in-range index is skipped. -/
theorem importFrom_mem_check (env : Env) (total start : Nat) :
    ∀ (subs : List Subscription) (i : Nat) (stats : Stats) (j : Nat),
      i ≤ j → j < i + subs.length → start ≤ j →
      Event.checkSubscribed j ∈ (importFrom env total start subs i stats).2 := by
  intro subs
  induction subs with
  | nil => intro i stats j h1 h2 _; simp only [List.length_nil] at h2; omega
  | cons sub rest ih =>
    intro i stats j h1 h2 h3
    simp only [List.length_cons] at h2
    by_cases hs : i < start
    · have h1' : i + 1 ≤ j := by omega
      simpa [importFrom, hs] using ih (i + 1) stats j h1' (by omega) h3
    · by_cases hij : j = i
      · subst hij
        by_cases ha : env.alreadySubscribed j
        · simp [importFrom, hs, ha]
        · simp [importFrom, hs, ha]
      · have h1' : i + 1 ≤ j := by omega
        by_cases ha : env.alreadySubscribed i
        · simp [importFrom, hs, ha, hij]
          exact ih (i + 1) _ j h1' (by omega) h3
        · by_cases hk : env.attemptOk i
          · simp [importFrom, hs, ha, hk, hij]
            exact ih (i + 1) _ j h1' (by omega) h3
          · simp [importFrom, hs, ha, hk, hij]
            exact ih (i + 1) _ j h1' (by omega) h3

/-- A processed item whose pre-check came back false gets its inter-item
sleep event. -/
theorem importFrom_mem_sleep (env : Env) (total start : Nat) :
    ∀ (subs : List Subscription) (i : Nat) (stats : Stats) (j : Nat),
      i ≤ j → j < i + subs.length → start ≤ j →
      env.alreadySubscribed j = false →
      Event.interItemSleep j ∈ (importFrom env total start subs i stats).2 := by
  intro subs
  induction subs with
  | nil => intro i stats j h1 h2 _ _; simp only [List.length_nil] at h2; omega
  | cons sub rest ih =>
    intro i stats j h1 h2 h3 ha
    simp only [List.length_cons] at h2
    by_cases hs : i < start
    · have h1' : i + 1 ≤ j := by omega
      simpa [importFrom, hs] using ih (i + 1) stats j h1' (by omega) h3 ha
    · by_cases hij : j = i
      · subst hij
        by_cases hk : env.attemptOk j
        · simp [importFrom, hs, ha, hk]
        · simp [importFrom, hs, ha, hk]
      · have h1' : i + 1 ≤ j := by omega
        by_cases hai : env.alreadySubscribed i
        · simp [importFrom, hs, hai, hij]
          exact ih (i + 1) _ j h1' (by omega) h3 ha
        · by_cases hk : env.attemptOk i
          · simp [importFrom, hs, hai, hk, hij]
            exact ih (i + 1) _ j h1' (by omega) h3 ha
          · simp [importFrom, hs, hai, hk, hij]
            exact ih (i + 1) _ j h1' (by omega) h3 ha

/-- A sleep event only arises from an item whose pre-check came back false:
the `continue` in the already-subscribed branch bypasses the sleep. -/
theorem importFrom_sleep_already (env : Env) (total start : Nat) :
    ∀ (subs : List Subscription) (i : Nat) (stats : Stats) (j : Nat),
      Event.interItemSleep j ∈ (importFrom env total start subs i stats).2 →
      env.alreadySubscribed j = false := by
  intro subs
  induction subs with
  | nil => intro i stats j h; simp [importFrom] at h
  | cons sub rest ih =>
    intro i stats j h
    by_cases hs : i < start
    · exact ih (i + 1) stats j (by simpa [importFrom, hs] using h)
    · by_cases ha : env.alreadySubscribed i
      · simp [importFrom, hs, ha] at h
        exact ih (i + 1) _ j h
      · by_cases hk : env.attemptOk i
        · simp [importFrom, hs, ha, hk] at h
          rcases h with hji | h
          · subst hji; simpa using ha
          · exact ih (i + 1) _ j h
        · simp [importFrom, hs, ha, hk] at h
          rcases h with hji | h
          · subst hji; simpa using ha
          · exact ih (i + 1) _ j h

/-- Every indexed event the loop emits concerns a position at or past both
the resume offset and the current position. -/
theorem importFrom_idx_ge (env : Env) (total start : Nat) :
    ∀ (subs : List Subscription) (i : Nat) (stats : Stats) (e : Event)
      (j : Nat),
      e ∈ (importFrom env total start subs i stats).2 → e.idx = some j →
      start ≤ j ∧ i ≤ j := by
  intro subs
  induction subs with
  | nil => intro i stats e j h _; simp [importFrom] at h
  | cons sub rest ih =>
    intro i stats e j h hidx
    by_cases hs : i < start
    · have := ih (i + 1) stats e j (by simpa [importFrom, hs] using h) hidx
      omega
    · by_cases ha : env.alreadySubscribed i
      · simp [importFrom, hs, ha] at h
        rcases h with rfl | rfl | h
        · simp [Event.idx] at hidx; omega
        · simp [Event.idx] at hidx; omega
        · have := ih (i + 1) _ e j h hidx; omega
      · by_cases hk : env.attemptOk i
        · simp [importFrom, hs, ha, hk] at h
          rcases h with rfl | rfl | rfl | rfl | h
          · simp [Event.idx] at hidx; omega
          · simp [Event.idx] at hidx; omega
          · simp [Event.idx] at hidx; omega
          · simp [Event.idx] at hidx; omega
          · have := ih (i + 1) _ e j h hidx; omega
        · simp [importFrom, hs, ha, hk] at h
          rcases h with rfl | rfl | rfl | rfl | h
          · simp [Event.idx] at hidx; omega
          · simp [Event.idx] at hidx; omega
          · simp [Event.idx] at hidx; omega
          · simp [Event.idx] at hidx; omega
          · have := ih (i + 1) _ e j h hidx; omega

/-- The per-item loop never clears the progress file. -/
theorem importFrom_no_clear (env : Env) (total start : Nat) :
    ∀ (subs : List Subscription) (i : Nat) (stats : Stats),
      Event.clearProgress ∉ (importFrom env total start subs i stats).2 := by
  intro subs
  induction subs with
  | nil => intro i stats; simp [importFrom]
  | cons sub rest ih =>
    intro i stats
    by_cases hs : i < start
    · simpa [importFrom, hs] using ih (i + 1) stats
    · by_cases ha : env.alreadySubscribed i
      · simp [importFrom, hs, ha]
        exact ih (i + 1) _
      · by_cases hk : env.attemptOk i
        · simp [importFrom, hs, ha, hk]
          exact ih (i + 1) _
        · simp [importFrom, hs, ha, hk]
          exact ih (i + 1) _

/-- One step of the trace fold. -/
theorem progressAfter_cons (s : Option Progress) (e : Event) (tr : List Event) :
    progressAfter s (e :: tr) = progressAfter (applyEvent s e) tr := rfl

/-- Interruption invariant for the per-item loop.  Cut the trace of the loop at an
arbitrary point `p ++ q`; `s₀` is the record on disk when the loop reaches
position `i` (none, or the save of position `i - 1`).  Then: (a) any cut
containing the pre-check or the attempt for an index also contains its
progress save (the save is written first); and (b) if a record `rec` with
index `k` survives the cut, then the record index never ran ahead of the
loop by more than the current item — no index beyond `k` was touched — and
never fell behind — every index from `i` up to `k - 1` had its pre-check
(and, unless already subscribed, its attempt), and every index from `i` up
to `k` had its save. -/
theorem importFrom_interrupt (env : Env) (total start : Nat) :
    ∀ (subs : List Subscription) (i : Nat) (stats : Stats)
      (s₀ : Option Progress) (p q : List Event),
      p ++ q = (importFrom env total start subs i stats).2 →
      start ≤ i →
      (∀ r, s₀ = some r → r.last_processed_index + 1 = i) →
      (∀ j, Event.checkSubscribed j ∈ p ∨ Event.attemptSubscribe j ∈ p →
          ∃ c t, Event.saveProgress j c t ∈ p) ∧
      ∀ rec, progressAfter s₀ p = some rec →
        (∀ r, s₀ = some r →
            r.last_processed_index ≤ rec.last_processed_index) ∧
        (∀ j, rec.last_processed_index < j →
            Event.checkSubscribed j ∉ p ∧ Event.attemptSubscribe j ∉ p) ∧
        (∀ j, i ≤ j → j < rec.last_processed_index →
            Event.checkSubscribed j ∈ p ∧
            (env.alreadySubscribed j = false → Event.attemptSubscribe j ∈ p)) ∧
        (∀ j, i ≤ j → j ≤ rec.last_processed_index →
            ∃ c t, Event.saveProgress j c t ∈ p) := by
  intro subs
  induction subs with
  | nil =>
    intro i stats s₀ p q htr hstart hs₀
    simp only [importFrom] at htr
    have hp : p = [] := by
      cases p with
      | nil => rfl
      | cons e p' => simp at htr
    subst hp
    refine ⟨by simp, ?_⟩
    intro rec hrec
    simp only [progressAfter, List.foldl_nil] at hrec
    refine ⟨?_, by simp, ?_, ?_⟩
    · intro r hr
      rw [hr] at hrec
      injection hrec with h
      subst h
      exact le_refl _
    · intro j h1 h2
      have := hs₀ rec hrec
      omega
    · intro j h1 h2
      have := hs₀ rec hrec
      omega
  | cons sub rest ih =>
    intro i stats s₀ p q htr hstart hs₀
    have hs : ¬ i < start := by omega
    by_cases ha : env.alreadySubscribed i
    · -- already-subscribed branch: item trace is [save, check]
      simp only [importFrom, if_neg hs, if_pos ha] at htr
      cases p with
      | nil =>
        refine ⟨by simp, ?_⟩
        intro rec hrec
        simp only [progressAfter, List.foldl_nil] at hrec
        refine ⟨?_, by simp, ?_, ?_⟩
        · intro r hr
          rw [hr] at hrec
          injection hrec with h
          subst h
          exact le_refl _
        · intro j h1 h2
          have := hs₀ rec hrec
          omega
        · intro j h1 h2
          have := hs₀ rec hrec
          omega
      | cons e p' =>
        rw [List.cons_append] at htr
        injection htr with he htr
        subst he
        cases p' with
        | nil =>
          refine ⟨?_, ?_⟩
          · intro j hj
            rcases hj with hj | hj <;> simp at hj
          · intro rec hrec
            simp only [progressAfter_cons, applyEvent,
              progressAfter, List.foldl_nil] at hrec
            injection hrec with hrec
            subst hrec
            refine ⟨?_, ?_, ?_, ?_⟩
            · intro r hr
              have := hs₀ r hr
              simp
              omega
            · intro j hj
              refine ⟨?_, ?_⟩ <;> intro hmem <;> simp at hmem
            · intro j h1 h2
              simp at h2
              omega
            · intro j h1 h2
              simp at h2
              have hji : j = i := by omega
              subst hji
              exact ⟨sub.channel_id, total, by simp⟩
        | cons e₂ p'' =>
          rw [List.cons_append] at htr
          injection htr with he₂ htr
          subst he₂
          obtain ⟨ordIH, recIH⟩ := ih (i + 1)
            { stats with already_subscribed := stats.already_subscribed + 1 }
            (some ⟨i, sub.channel_id, total⟩) p'' q htr (by omega)
            (by intro r hr; injection hr with hr; rw [← hr])
          refine ⟨?_, ?_⟩
          · intro j hj
            by_cases hji : j = i
            · subst hji
              exact ⟨sub.channel_id, total, by simp⟩
            · have hj' : Event.checkSubscribed j ∈ p'' ∨
                  Event.attemptSubscribe j ∈ p'' := by
                rcases hj with hj | hj
                · simp [hji] at hj
                  exact Or.inl hj
                · simp [hji] at hj
                  exact Or.inr hj
              obtain ⟨c, t, hc⟩ := ordIH j hj'
              exact ⟨c, t, by simp [hc]⟩
          · intro rec hrec
            simp only [progressAfter_cons, applyEvent] at hrec
            obtain ⟨mono, upper, complete, saves⟩ := recIH rec hrec
            have hi_le : i ≤ rec.last_processed_index := mono _ rfl
            refine ⟨?_, ?_, ?_, ?_⟩
            · intro r hr
              have := hs₀ r hr
              omega
            · intro j hj
              obtain ⟨hc, hat⟩ := upper j hj
              constructor
              · simp [hc]
                omega
              · simp [hat]
            · intro j h1 h2
              by_cases hji : j = i
              · subst hji
                refine ⟨by simp, ?_⟩
                intro hfalse
                simp [ha] at hfalse
              · obtain ⟨hc, hat⟩ := complete j (by omega) h2
                exact ⟨by simp [hc], fun hf => by simp [hat hf]⟩
            · intro j h1 h2
              by_cases hji : j = i
              · subst hji
                exact ⟨sub.channel_id, total, by simp⟩
              · obtain ⟨c, t, hc⟩ := saves j (by omega) h2
                exact ⟨c, t, by simp [hc]⟩
    · -- attempt branch: item trace is [save, check, attempt, sleep]
      simp only [importFrom, if_neg hs, if_neg ha] at htr
      cases p with
      | nil =>
        refine ⟨by simp, ?_⟩
        intro rec hrec
        simp only [progressAfter, List.foldl_nil] at hrec
        refine ⟨?_, by simp, ?_, ?_⟩
        · intro r hr
          rw [hr] at hrec
          injection hrec with h
          subst h
          exact le_refl _
        · intro j h1 h2
          have := hs₀ rec hrec
          omega
        · intro j h1 h2
          have := hs₀ rec hrec
          omega
      | cons e p' =>
        rw [List.cons_append] at htr
        injection htr with he htr
        subst he
        cases p' with
        | nil =>
          refine ⟨?_, ?_⟩
          · intro j hj
            rcases hj with hj | hj <;> simp at hj
          · intro rec hrec
            simp only [progressAfter_cons, applyEvent,
              progressAfter, List.foldl_nil] at hrec
            injection hrec with hrec
            subst hrec
            refine ⟨?_, ?_, ?_, ?_⟩
            · intro r hr
              have := hs₀ r hr
              simp
              omega
            · intro j hj
              refine ⟨?_, ?_⟩ <;> intro hmem <;> simp at hmem
            · intro j h1 h2
              simp at h2
              omega
            · intro j h1 h2
              simp at h2
              have hji : j = i := by omega
              subst hji
              exact ⟨sub.channel_id, total, by simp⟩
        | cons e₂ p'' =>
          rw [List.cons_append] at htr
          injection htr with he₂ htr
          subst he₂
          cases p'' with
          | nil =>
            refine ⟨?_, ?_⟩
            · intro j hj
              have hji : j = i := by
                rcases hj with hj | hj <;> simp at hj <;> omega
              subst hji
              exact ⟨sub.channel_id, total, by simp⟩
            · intro rec hrec
              simp only [progressAfter_cons, applyEvent,
                progressAfter, List.foldl_nil] at hrec
              injection hrec with hrec
              subst hrec
              refine ⟨?_, ?_, ?_, ?_⟩
              · intro r hr
                have := hs₀ r hr
                simp
                omega
              · intro j hj
                simp at hj
                refine ⟨?_, ?_⟩ <;> intro hmem <;> simp at hmem <;> omega
              · intro j h1 h2
                simp at h2
                omega
              · intro j h1 h2
                simp at h2
                have hji : j = i := by omega
                subst hji
                exact ⟨sub.channel_id, total, by simp⟩
          | cons e₃ p₃ =>
            rw [List.cons_append] at htr
            injection htr with he₃ htr
            subst he₃
            cases p₃ with
            | nil =>
              refine ⟨?_, ?_⟩
              · intro j hj
                have hji : j = i := by
                  rcases hj with hj | hj <;> simp at hj <;> omega
                subst hji
                exact ⟨sub.channel_id, total, by simp⟩
              · intro rec hrec
                simp only [progressAfter_cons, applyEvent,
                  progressAfter, List.foldl_nil] at hrec
                injection hrec with hrec
                subst hrec
                refine ⟨?_, ?_, ?_, ?_⟩
                · intro r hr
                  have := hs₀ r hr
                  simp
                  omega
                · intro j hj
                  simp at hj
                  refine ⟨?_, ?_⟩ <;> intro hmem <;> simp at hmem <;> omega
                · intro j h1 h2
                  simp at h2
                  omega
                · intro j h1 h2
                  simp at h2
                  have hji : j = i := by omega
                  subst hji
                  exact ⟨sub.channel_id, total, by simp⟩
            | cons e₄ p₄ =>
              rw [List.cons_append] at htr
              injection htr with he₄ htr
              subst he₄
              obtain ⟨ordIH, recIH⟩ := ih (i + 1)
                (if env.attemptOk i then
                    { stats with successful := stats.successful + 1 }
                  else { stats with failed := stats.failed + 1 })
                (some ⟨i, sub.channel_id, total⟩) p₄ q htr (by omega)
                (by intro r hr; injection hr with hr; rw [← hr])
              refine ⟨?_, ?_⟩
              · intro j hj
                by_cases hji : j = i
                · subst hji
                  exact ⟨sub.channel_id, total, by simp⟩
                · have hj' : Event.checkSubscribed j ∈ p₄ ∨
                      Event.attemptSubscribe j ∈ p₄ := by
                    rcases hj with hj | hj
                    · simp [hji] at hj
                      exact Or.inl hj
                    · simp [hji] at hj
                      exact Or.inr hj
                  obtain ⟨c, t, hc⟩ := ordIH j hj'
                  exact ⟨c, t, by simp [hc]⟩
              · intro rec hrec
                simp only [progressAfter_cons, applyEvent] at hrec
                obtain ⟨mono, upper, complete, saves⟩ := recIH rec hrec
                have hi_le : i ≤ rec.last_processed_index := mono _ rfl
                refine ⟨?_, ?_, ?_, ?_⟩
                · intro r hr
                  have := hs₀ r hr
                  omega
                · intro j hj
                  obtain ⟨hc, hat⟩ := upper j hj
                  constructor
                  · simp [hc]
                    omega
                  · simp [hat]
                    omega
                · intro j h1 h2
                  by_cases hji : j = i
                  · subst hji
                    exact ⟨by simp, fun _ => by simp⟩
                  · obtain ⟨hc, hat⟩ := complete j (by omega) h2
                    exact ⟨by simp [hc], fun hf => by simp [hat hf]⟩
                · intro j h1 h2
                  by_cases hji : j = i
                  · subst hji
                    exact ⟨sub.channel_id, total, by simp⟩
                  · obtain ⟨c, t, hc⟩ := saves j (by omega) h2
                    exact ⟨c, t, by simp [hc]⟩

/-- The statistics record as initialised at source lines 379-385 (with the
`skipped` pre-seed of line 394). -/
def initStats (n skipped : Nat) : Stats :=
  { total := n, successful := 0, failed := 0, already_subscribed := 0,
    skipped := skipped }

/-- Unfolding a fresh-mode run: stale clear, loop from index 0, final clear. -/
theorem import_fresh_eq (env : Env) (stored : Option Progress)
    (subs : List Subscription) :
    import_subscriptions env false stored subs
      = ((importFrom env subs.length 0 subs 0 (initStats subs.length 0)).1,
         Event.clearProgress ::
           ((importFrom env subs.length 0 subs 0 (initStats subs.length 0)).2
             ++ [Event.clearProgress])) := rfl

/-- Unfolding a resume-mode run with a stored record. -/
theorem import_resume_some_eq (env : Env) (rec : Progress)
    (subs : List Subscription) :
    import_subscriptions env true (some rec) subs
      = ((importFrom env subs.length (rec.last_processed_index + 1) subs 0
            (initStats subs.length (rec.last_processed_index + 1))).1,
         (importFrom env subs.length (rec.last_processed_index + 1) subs 0
            (initStats subs.length (rec.last_processed_index + 1))).2
           ++ [Event.clearProgress]) := rfl

/-- Unfolding a resume-mode run without a stored record. -/
theorem import_resume_none_eq (env : Env) (subs : List Subscription) :
    import_subscriptions env true none subs
      = ((importFrom env subs.length 0 subs 0 (initStats subs.length 0)).1,
         (importFrom env subs.length 0 subs 0 (initStats subs.length 0)).2
           ++ [Event.clearProgress]) := rfl

/-- C1: a fresh-mode run over a non-empty list returns statistics with
`successful + failed + already_subscribed = total`, `total` is the list
length, the trace ends with the unconditional `clear_progress`, and no
progress record survives the run. -/
theorem import_complete_run (env : Env) (stored : Option Progress)
    (subs : List Subscription) (_hne : subs ≠ []) :
    (import_subscriptions env false stored subs).1.successful
        + (import_subscriptions env false stored subs).1.failed
        + (import_subscriptions env false stored subs).1.already_subscribed
      = (import_subscriptions env false stored subs).1.total ∧
    (import_subscriptions env false stored subs).1.total = subs.length ∧
    progressAfter stored (import_subscriptions env false stored subs).2
      = none ∧
    ∃ t, (import_subscriptions env false stored subs).2
      = t ++ [Event.clearProgress] := by
  have hc := importFrom_counts env subs.length 0 subs 0
    (initStats subs.length 0) (le_refl 0)
  have hst := importFrom_skipped_total env subs.length 0 subs 0
    (initStats subs.length 0)
  refine ⟨?_, ?_, ?_, ?_⟩
  · rw [import_fresh_eq]
    simp only [initStats] at hc hst ⊢
    omega
  · rw [import_fresh_eq]
    simp only [initStats] at hst ⊢
    exact hst.2
  · rw [import_fresh_eq]
    show progressAfter stored
      (Event.clearProgress ::
        ((importFrom env subs.length 0 subs 0 (initStats subs.length 0)).2
          ++ [Event.clearProgress])) = none
    rw [progressAfter_cons, progressAfter_clear]
  · refine ⟨Event.clearProgress ::
      (importFrom env subs.length 0 subs 0 (initStats subs.length 0)).2, ?_⟩
    rw [import_fresh_eq]
    simp

/-- Spot check for C1 at a concrete non-empty list. -/
theorem import_complete_run_witness :
    progressAfter none (import_subscriptions envOk false none [subA]).2
      = none :=
  (import_complete_run envOk none [subA] (by decide)).2.2.1

/-- C3: in resume mode, a stored record makes the run start at
`last_processed_index + 1` and pre-seeds `skipped` with that offset; with no
stored record the start index and `skipped` are both 0. -/
theorem import_resume_offset (env : Env) (rec : Progress)
    (subs : List Subscription) :
    startIndex true (some rec) = rec.last_processed_index + 1 ∧
    (import_subscriptions env true (some rec) subs).1.skipped
      = rec.last_processed_index + 1 ∧
    startIndex true none = 0 ∧
    (import_subscriptions env true none subs).1.skipped = 0 := by
  refine ⟨rfl, ?_, rfl, ?_⟩
  · rw [import_resume_some_eq]
    exact (importFrom_skipped_total env subs.length
      (rec.last_processed_index + 1) subs 0
      (initStats subs.length (rec.last_processed_index + 1))).1
  · rw [import_resume_none_eq]
    exact (importFrom_skipped_total env subs.length 0 subs 0
      (initStats subs.length 0)).1

/-- C4: a fresh-mode run while a stale record exists behaves exactly as if
no record existed: the first trace event is the pre-loop clear, every index
of the list is processed, and `skipped = 0`. -/
theorem import_fresh_ignores_stale (env : Env) (rec : Progress)
    (subs : List Subscription) :
    import_subscriptions env false (some rec) subs
      = import_subscriptions env false none subs ∧
    (import_subscriptions env false (some rec) subs).2.head?
      = some Event.clearProgress ∧
    (∀ i, i < subs.length →
      Event.checkSubscribed i
        ∈ (import_subscriptions env false (some rec) subs).2) ∧
    (import_subscriptions env false (some rec) subs).1.skipped = 0 := by
  refine ⟨rfl, ?_, ?_, ?_⟩
  · rw [import_fresh_eq]
    rfl
  · intro i hi
    rw [import_fresh_eq]
    have := importFrom_mem_check env subs.length 0 subs 0
      (initStats subs.length 0) i (Nat.zero_le i) (by omega) (Nat.zero_le i)
    simp [this]
  · rw [import_fresh_eq]
    exact (importFrom_skipped_total env subs.length 0 subs 0
      (initStats subs.length 0)).1

/-- Spot check for C4 at a concrete list with a stale record. -/
theorem import_fresh_ignores_stale_witness :
    Event.checkSubscribed 0
      ∈ (import_subscriptions envOk false (some ⟨7, "UCx", 3⟩) [subA]).2 :=
  (import_fresh_ignores_stale envOk ⟨7, "UCx", 3⟩ [subA]).2.2.1 0 (by decide)

/-- C10: resuming with a stored index at or beyond the end of the list makes
the loop process nothing — the run returns `skipped = last_processed_index
+ 1` (possibly exceeding `total`), zeroes elsewhere, and the trace is just
the final clear, which removes the stale record. -/
theorem import_resume_stale_beyond_end (env : Env) (rec : Progress)
    (subs : List Subscription)
    (h : subs.length - 1 ≤ rec.last_processed_index) :
    import_subscriptions env true (some rec) subs
      = (initStats subs.length (rec.last_processed_index + 1),
         [Event.clearProgress]) ∧
    progressAfter (some rec)
      (import_subscriptions env true (some rec) subs).2 = none := by
  have hout := importFrom_out_of_range env subs.length
    (rec.last_processed_index + 1) subs 0
    (initStats subs.length (rec.last_processed_index + 1)) (by omega)
  constructor
  · rw [import_resume_some_eq, hout]
    rfl
  · rw [import_resume_some_eq, hout]
    rfl

/-- Spot check for C10: a stored index of 5 against a 2-item list yields
`skipped = 6 > 2 = total` and a fully cleared ledger. -/
theorem import_resume_stale_beyond_end_witness :
    (import_subscriptions envOk true (some ⟨5, "UCx", 9⟩) [subA, subB]
        = (initStats 2 6, [Event.clearProgress]) ∧
      progressAfter (some ⟨5, "UCx", 9⟩)
        (import_subscriptions envOk true
          (some ⟨5, "UCx", 9⟩) [subA, subB]).2 = none) ∧
    6 > 2 :=
  ⟨import_resume_stale_beyond_end envOk ⟨5, "UCx", 9⟩ [subA, subB] (by decide),
   by decide⟩

/-- C2 (amended): the progress save for item `j` is written before that
pre-check and mutation attempt of that item — any interruption cut containing the
latter contains the former.  Consequently the surviving record after an
interruption is at-or-one-ahead of completed work, never behind: a record
with index `k` means every index below `k` was fully processed, no index
beyond `k` was touched, and index `k` itself may or may not have been
attempted.  A resume from that record starts at `k + 1`: it processes every
index beyond `k` and never re-attempts any index at or below `k` — in
particular the interrupted index `k` is skipped, not re-attempted. -/
theorem import_save_first_resume_skips (env : Env) (subs : List Subscription)
    (p q : List Event)
    (hpq : p ++ q = (import_subscriptions env false none subs).2) :
    (∀ j, Event.checkSubscribed j ∈ p ∨ Event.attemptSubscribe j ∈ p →
        ∃ c t, Event.saveProgress j c t ∈ p) ∧
    ∀ rec, progressAfter none p = some rec →
      (∀ j, rec.last_processed_index < j →
          Event.checkSubscribed j ∉ p ∧ Event.attemptSubscribe j ∉ p) ∧
      (∀ j, j < rec.last_processed_index →
          Event.checkSubscribed j ∈ p ∧
          (env.alreadySubscribed j = false → Event.attemptSubscribe j ∈ p)) ∧
      (∀ j, rec.last_processed_index < j → j < subs.length →
          Event.checkSubscribed j
            ∈ (import_subscriptions env true (some rec) subs).2) ∧
      (∀ j, j ≤ rec.last_processed_index →
          Event.attemptSubscribe j
            ∉ (import_subscriptions env true (some rec) subs).2) := by
  rw [import_fresh_eq] at hpq
  cases p with
  | nil =>
    refine ⟨by simp, ?_⟩
    intro rec hrec
    simp [progressAfter] at hrec
  | cons e p' =>
    rw [List.cons_append] at hpq
    injection hpq with he hpq
    subst he
    have main : (∀ j, Event.checkSubscribed j ∈ p' ∨
          Event.attemptSubscribe j ∈ p' →
          ∃ c t, Event.saveProgress j c t ∈ p') ∧
        ∀ rec, progressAfter none p' = some rec →
          (∀ r, (none : Option Progress) = some r →
              r.last_processed_index ≤ rec.last_processed_index) ∧
          (∀ j, rec.last_processed_index < j →
              Event.checkSubscribed j ∉ p' ∧
              Event.attemptSubscribe j ∉ p') ∧
          (∀ j, 0 ≤ j → j < rec.last_processed_index →
              Event.checkSubscribed j ∈ p' ∧
              (env.alreadySubscribed j = false →
                Event.attemptSubscribe j ∈ p')) ∧
          (∀ j, 0 ≤ j → j ≤ rec.last_processed_index →
              ∃ c t, Event.saveProgress j c t ∈ p') := by
      rcases List.append_eq_append_iff.mp hpq with ⟨a', ha1, ha2⟩ |
        ⟨c', hc1, hc2⟩
      · exact importFrom_interrupt env subs.length 0 subs 0
          (initStats subs.length 0) none p' a' ha1.symm (le_refl 0)
          (by intro r hr; cases hr)
      · cases c' with
        | nil =>
          rw [List.append_nil] at hc1
          subst hc1
          exact importFrom_interrupt env subs.length 0 subs 0
            (initStats subs.length 0) none _ [] (by simp) (le_refl 0)
            (by intro r hr; cases hr)
        | cons e₂ c'' =>
          rw [List.cons_append] at hc2
          injection hc2 with he₂ hc2
          subst he₂
          have hc'' : c'' = [] ∧ q = [] := by
            constructor
            · cases c'' with
              | nil => rfl
              | cons x xs => simp at hc2
            · cases c'' with
              | nil => simpa using hc2.symm
              | cons x xs => simp at hc2
          obtain ⟨rfl, rfl⟩ := hc''
          subst hc1
          obtain ⟨ord, _⟩ := importFrom_interrupt env subs.length 0 subs 0
            (initStats subs.length 0) none
            (importFrom env subs.length 0 subs 0 (initStats subs.length 0)).2
            [] (by simp) (le_refl 0) (by intro r hr; cases hr)
          refine ⟨?_, ?_⟩
          · intro j hj
            have hj' : Event.checkSubscribed j
                  ∈ (importFrom env subs.length 0 subs 0
                      (initStats subs.length 0)).2 ∨
                Event.attemptSubscribe j
                  ∈ (importFrom env subs.length 0 subs 0
                      (initStats subs.length 0)).2 := by
              rcases hj with hj | hj
              · simp at hj
                exact Or.inl hj
              · simp at hj
                exact Or.inr hj
            obtain ⟨c, t, hc⟩ := ord j hj'
            exact ⟨c, t, by simp [hc]⟩
          · intro rec hrec
            rw [progressAfter_clear] at hrec
            cases hrec
    obtain ⟨ordP, recP⟩ := main
    refine ⟨?_, ?_⟩
    · intro j hj
      have hj' : Event.checkSubscribed j ∈ p' ∨
          Event.attemptSubscribe j ∈ p' := by
        rcases hj with hj | hj
        · simp at hj
          exact Or.inl hj
        · simp at hj
          exact Or.inr hj
      obtain ⟨c, t, hc⟩ := ordP j hj'
      exact ⟨c, t, by simp [hc]⟩
    · intro rec hrec
      rw [progressAfter_cons] at hrec
      obtain ⟨_, upper, complete, _⟩ := recP rec hrec
      refine ⟨?_, ?_, ?_, ?_⟩
      · intro j hj
        obtain ⟨hc, hat⟩ := upper j hj
        exact ⟨by simp [hc], by simp [hat]⟩
      · intro j hj
        obtain ⟨hc, hat⟩ := complete j (Nat.zero_le j) hj
        exact ⟨by simp [hc], fun hf => by simp [hat hf]⟩
      · intro j h1 h2
        rw [import_resume_some_eq]
        have := importFrom_mem_check env subs.length
          (rec.last_processed_index + 1) subs 0
          (initStats subs.length (rec.last_processed_index + 1)) j
          (Nat.zero_le j) (by omega) (by omega)
        simp [this]
      · intro j hj hmem
        rw [import_resume_some_eq] at hmem
        simp at hmem
        have := importFrom_idx_ge env subs.length
          (rec.last_processed_index + 1) subs 0
          (initStats subs.length (rec.last_processed_index + 1))
          (Event.attemptSubscribe j) j hmem rfl
        omega

/-- C2 fails as stated: interrupt the fresh single-item run right after the
progress save for item 0.  The surviving record already names index 0
although item 0 was never attempted — the ledger is ahead of true progress,
not at-or-behind — and the subsequent resume run never attempts item 0
either: the interrupted index is skipped, not re-attempted. -/
theorem import_resume_skips_interrupted_cex :
    [Event.clearProgress, Event.saveProgress 0 "UC1" 1]
        ++ [Event.checkSubscribed 0, Event.attemptSubscribe 0,
            Event.interItemSleep 0, Event.clearProgress]
      = (import_subscriptions envOk false none [subA]).2 ∧
    Event.attemptSubscribe 0
      ∉ [Event.clearProgress, Event.saveProgress 0 "UC1" 1] ∧
    progressAfter none [Event.clearProgress, Event.saveProgress 0 "UC1" 1]
      = some ⟨0, "UC1", 1⟩ ∧
    Event.attemptSubscribe 0
      ∉ (import_subscriptions envOk true (some ⟨0, "UC1", 1⟩) [subA]).2 ∧
    (import_subscriptions envOk true
      (some ⟨0, "UC1", 1⟩) [subA]).1.successful = 0 := by
  decide

/-- Spot check for the amended C2: a cut of a concrete two-item run that
contains the pre-check of item 0 contains its progress save. -/
theorem import_save_first_resume_skips_witness :
    ∃ c t, Event.saveProgress 0 c t
      ∈ [Event.clearProgress, Event.saveProgress 0 "UC1" 2,
         Event.checkSubscribed 0] :=
  (import_save_first_resume_skips envOk [subA, subB]
      [Event.clearProgress, Event.saveProgress 0 "UC1" 2,
       Event.checkSubscribed 0]
      [Event.attemptSubscribe 0, Event.interItemSleep 0,
       Event.saveProgress 1 "UC2" 2, Event.checkSubscribed 1,
       Event.attemptSubscribe 1, Event.interItemSleep 1,
       Event.clearProgress]
      (by decide)).1 0 (Or.inl (by decide))

/-- C6 (amended): in a full fresh-mode run, a processed item is followed by
the inter-item sleep exactly when its pre-check came back false — the sleep
happens whether the attempt returned true or false, but the
already-subscribed branch `continue`s past it. -/
theorem import_sleep_iff (env : Env) (subs : List Subscription) (i : Nat)
    (hi : i < subs.length) :
    Event.interItemSleep i ∈ (import_subscriptions env false none subs).2
      ↔ env.alreadySubscribed i = false := by
  rw [import_fresh_eq]
  constructor
  · intro h
    simp at h
    exact importFrom_sleep_already env subs.length 0 subs 0
      (initStats subs.length 0) i h
  · intro h
    have := importFrom_mem_sleep env subs.length 0 subs 0
      (initStats subs.length 0) i (Nat.zero_le i) (by omega)
      (Nat.zero_le i) h
    simp [this]

/-- C6 fails as stated: an item found already subscribed by the pre-check is
processed without the inter-item sleep — the `continue` bypasses it. -/
theorem import_sleep_skipped_cex :
    (import_subscriptions envDup false none [subA]).1.already_subscribed
      = 1 ∧
    Event.interItemSleep 0
      ∉ (import_subscriptions envDup false none [subA]).2 := by
  decide

/-- Spot check for the amended C6 on a concrete one-item run. -/
theorem import_sleep_iff_witness :
    Event.interItemSleep 0 ∈ (import_subscriptions envOk false none [subA]).2
      ↔ envOk.alreadySubscribed 0 = false :=
  import_sleep_iff envOk [subA] 0 (by decide)

/-- C5 (amended): with the default bound `max_retries = 3`, an item rate
limited on every attempt incurs exactly the waits 5s = 5·2⁰ and 10s = 5·2¹
between 3 total attempts before `subscribe_to_channel` returns false — the
k-th wait is `(2 ** attempt) * 5` — and a NotFound outcome incurs exactly
one attempt and no wait. -/
theorem subscribe_backoff_schedule (outcomes : Nat → Outcome) :
    ((∀ k, outcomes k = Outcome.rateLimited) →
      subscribe_to_channel outcomes 3
        = ⟨false, [2 ^ 0 * 5, 2 ^ 1 * 5], 3⟩) ∧
    (outcomes 0 = Outcome.notFound →
      subscribe_to_channel outcomes 3 = ⟨false, [], 1⟩) := by
  constructor
  · intro h
    simp [subscribe_to_channel, subscribeGo, h 0, h 1, h 2]
  · intro h
    simp [subscribe_to_channel, subscribeGo, h]

/-- C5 fails as stated: persistent rate limiting with `max_retries = 3`
produces 3 total attempts with waits 5s and 10s, not 4 attempts with waits
5s, 10s and 20s. -/
theorem subscribe_backoff_schedule_cex :
    subscribe_to_channel (fun _ => Outcome.rateLimited) 3
        = ⟨false, [5, 10], 3⟩ ∧
    subscribe_to_channel (fun _ => Outcome.rateLimited) 3
        ≠ ⟨false, [5, 10, 20], 4⟩ := by
  decide

/-- Spot check for the amended C5 at both concrete outcome sequences. -/
theorem subscribe_backoff_schedule_witness :
    subscribe_to_channel (fun _ => Outcome.rateLimited) 3
        = ⟨false, [2 ^ 0 * 5, 2 ^ 1 * 5], 3⟩ ∧
    subscribe_to_channel (fun _ => Outcome.notFound) 3 = ⟨false, [], 1⟩ :=
  ⟨(subscribe_backoff_schedule (fun _ => Outcome.rateLimited)).1
      (fun _ => rfl),
   (subscribe_backoff_schedule (fun _ => Outcome.notFound)).2 rfl⟩

/-- C7: the retry policy returns true immediately (one attempt, no wait) on
a Success or AlreadyExists outcome, returns false immediately with no retry
consumed on NotFound or QuotaExceeded, and always resolves to a boolean
result — it is a total function into `RetryResult`. -/
theorem subscribe_immediate_outcomes (outcomes : Nat → Outcome)
    (max_retries : Nat) (h : 0 < max_retries) :
    ((outcomes 0 = Outcome.success ∨ outcomes 0 = Outcome.alreadyExists) →
      subscribe_to_channel outcomes max_retries = ⟨true, [], 1⟩) ∧
    ((outcomes 0 = Outcome.notFound ∨ outcomes 0 = Outcome.quotaExceeded) →
      subscribe_to_channel outcomes max_retries = ⟨false, [], 1⟩) ∧
    ((subscribe_to_channel outcomes max_retries).result = true ∨
      (subscribe_to_channel outcomes max_retries).result = false) := by
  obtain ⟨m, rfl⟩ : ∃ m, max_retries = m + 1 := ⟨max_retries - 1, by omega⟩
  refine ⟨?_, ?_, ?_⟩
  · rintro (h0 | h0) <;> simp [subscribe_to_channel, subscribeGo, h0]
  · rintro (h0 | h0) <;> simp [subscribe_to_channel, subscribeGo, h0]
  · cases hr : (subscribe_to_channel outcomes (m + 1)).result
    · exact Or.inr rfl
    · exact Or.inl rfl

/-- Spot check for C7 at two concrete outcome sequences. -/
theorem subscribe_immediate_outcomes_witness :
    subscribe_to_channel (fun _ => Outcome.success) 3 = ⟨true, [], 1⟩ ∧
    subscribe_to_channel (fun _ => Outcome.quotaExceeded) 3
      = ⟨false, [], 1⟩ :=
  ⟨(subscribe_immediate_outcomes (fun _ => Outcome.success) 3
      (by decide)).1 (Or.inl rfl),
   (subscribe_immediate_outcomes (fun _ => Outcome.quotaExceeded) 3
      (by decide)).2.1 (Or.inr rfl)⟩

/-- C8: saving a snapshot document and loading it back yields exactly the
stored sequence, in order, with all five fields of every record intact, and
the `total_subscriptions` field of the document is recomputed from the sequence
length at write time (the save takes no total as input at all). -/
theorem snapshot_round_trip (now : String) (subs : List Subscription) :
    load_subscriptions (Except.ok (save_subscriptions now subs))
      = Json.arr (subs.map subToJson) ∧
    decodeSubs (subs.map subToJson) = some subs ∧
    (save_subscriptions now subs).get "total_subscriptions"
      = some (Json.num subs.length) := by
  have hdec : ∀ s : Subscription, jsonToSub (subToJson s) = some s := by
    intro s
    simp [jsonToSub, subToJson, Json.get, lookupField]
  refine ⟨rfl, ?_, rfl⟩
  induction subs with
  | nil => rfl
  | cons s rest ih =>
    simp [decodeSubs, hdec, ih]

/-- C9: no infrastructure read/write failure propagates out of the ledger
or the snapshot store: `save_progress` and `clear_progress` swallow every
failure, `load_progress` returns the empty dict when the file is missing or
unreadable, and `load_subscriptions` returns the empty list on any
read/parse failure. -/
theorem infra_failures_swallowed :
    (∀ w : Except String Unit, save_progress w = Except.ok ()) ∧
    (∀ c : Except String Unit, clear_progress c = Except.ok ()) ∧
    (∀ r : Except String Json, load_progress false r = Json.obj []) ∧
    (∀ e : String, load_progress true (Except.error e) = Json.obj []) ∧
    (∀ e : String, load_subscriptions (Except.error e) = Json.arr []) := by
  refine ⟨?_, ?_, ?_, ?_, ?_⟩
  · intro w
    cases w <;> rfl
  · intro c
    cases c <;> rfl
  · intro r
    rfl
  · intro e
    rfl
  · intro e
    rfl
